import Mathlib

/-!
A verification development for the concurrent pipeline engine of
gmalt/hgt2sql (`gmaltcli/worker.py`, `gmaltcli/hgt.py`).

The threaded worker pool (`WorkerPool`, `Worker`) is embedded as a
small-step interleaving semantics: one transition is one atomic action of
one worker thread or of the main thread.  The shallow embedding follows
the source line by line:

* `Worker.run` (worker.py:154-167): loop top evaluates
  `self.queue.empty() or self.stop_event.is_set()` and breaks, else falls
  into `_get_queue`.  The two reads are modelled as one atomic observation;
  no write of the observing thread can interleave them, and the races the
  claims are about (check versus `get`, check versus `process`) are kept.
* `Worker._get_queue` (worker.py:169-186): `queue.get()` is a *blocking*
  dequeue - the transition is enabled only when the queue is non-empty,
  and a worker stays in the `getting` state otherwise.  Then
  `counter.increment()` (one atomic step: `SafeCounter.increment` holds a
  lock, worker.py:40-45), then `process(...)`; an exception in `process`
  sets the shared stop event (`stop_event.set()`).
* `WorkerPool.start` / `WorkerPool._wait` (worker.py:95-123): the main
  thread returns from `_wait` when no worker `isAlive()`; then it raises
  `WorkerPoolException` when `stop_event.is_set()` and returns normally
  otherwise.  A `KeyboardInterrupt` sets the stop event, waits again, and
  re-raises the interruption.
* `WorkerPool.fill` (worker.py:83-93) runs before `start` in a single
  thread; it is folded into the initial state: queue pre-filled with the
  items, `counter.max` set to their number.

An event log (dequeues, process invocations, stop-event sets, the user
interruption) records the order of the observable actions; the temporal
claims are stated over it.
-/

namespace Hgt2Sql

/-- Work items are abstract payloads handed to `process`; they are indexed
by naturals. -/
abbrev Item := Nat

/-- Local state of one `Worker` thread inside `Worker.run` /
`Worker._get_queue`:
`atCheck` = at the loop-top test (worker.py:161),
`getting` = inside the blocking `self.queue.get()` (worker.py:177),
`incr x`  = holding item `x`, about to run `self.counter.increment()`
(worker.py:178),
`processing x` = running `self.process(x, ...)` (worker.py:180),
`done` = the loop was broken and the thread ended (no longer
`isAlive()`). -/
inductive WStatus
  | atCheck
  | getting
  | incr (x : Item)
  | processing (x : Item)
  | done
deriving DecidableEq

/-- Observable events, in program order. -/
inductive Event
  | deq (w : Nat) (x : Item)
  | proc (w : Nat) (x : Item)
  | stopSet
  | interrupted
deriving DecidableEq

/-- State of the main thread inside `WorkerPool.start`:
`waiting` = inside `self._wait()` (worker.py:116),
`kiWaiting` = a `KeyboardInterrupt` arrived, the stop event was set and
the main thread is in the second `self._wait()` (worker.py:117-119),
`returnedNormal` = `start()` returned without raising,
`raisedPool` = `start()` raised `WorkerPoolException` (worker.py:122-123),
`raisedKI` = `start()` re-raised the `KeyboardInterrupt`
(worker.py:120). -/
inductive MStatus
  | waiting
  | kiWaiting
  | returnedNormal
  | raisedPool
  | raisedKI
deriving DecidableEq

/-- Global state of one `WorkerPool` run: the shared FIFO `queue.Queue`,
the shared `stop_event` flag, the shared `SafeCounter` (value and `max`),
the status of every worker thread, the status of the main thread, and the
event log. -/
structure PoolState where
  queue : List Item
  stop : Bool
  counter : Nat
  counterMax : Nat
  workers : List WStatus
  main : MStatus
  log : List Event
deriving DecidableEq

/-- All worker threads have ended: `WorkerPool._wait`'s exit condition
`not any(worker.isAlive() for worker in self.workers)`
(worker.py:101). -/
def AllDone (ws : List WStatus) : Prop := ∀ st ∈ ws, st = WStatus.done

instance (ws : List WStatus) : Decidable (AllDone ws) :=
  List.decidableBAll _ ws

/-- State after `WorkerPool.__init__(worker, size, ...)` plus
`pool.fill(items)` and just before `pool.start()`: the queue holds the
items in order, `counter.max = len(items)` (worker.py:92), the counter is
0, the stop event is clear, `size` workers are about to enter their loop,
and the main thread enters `_wait`. -/
def initState (size : Nat) (items : List Item) : PoolState :=
  { queue := items
    stop := false
    counter := 0
    counterMax := items.length
    workers := List.replicate size WStatus.atCheck
    main := MStatus.waiting
    log := [] }

/-- One atomic action of the pool.  `p x = true` means `process` returns
normally on item `x`; `p x = false` means `process` raises.  (`p` is the
per-item outcome of the stage handler, a parameter of the model of the
generic pool.) -/
inductive Step (p : Item → Bool) : PoolState → PoolState → Prop
  /-- Loop top (worker.py:161-162): `queue.empty() or stop_event.is_set()`
  holds, so the worker breaks out of its loop and ends. -/
  | checkExit (s : PoolState) (w : Nat)
      (hw : s.workers.get? w = some WStatus.atCheck)
      (hcond : s.queue = [] ∨ s.stop = true) :
      Step p s { s with workers := s.workers.set w WStatus.done }
  /-- Loop top (worker.py:161): the queue is non-empty and the stop event
  is clear, so the worker falls through into `_get_queue`. -/
  | checkEnter (s : PoolState) (w : Nat)
      (hw : s.workers.get? w = some WStatus.atCheck)
      (hq : s.queue ≠ []) (hs : s.stop = false) :
      Step p s { s with workers := s.workers.set w WStatus.getting }
  /-- `queue_item = self.queue.get()` (worker.py:177): blocking FIFO
  dequeue, enabled only on a non-empty queue. -/
  | dequeue (s : PoolState) (w : Nat) (x : Item) (rest : List Item)
      (hw : s.workers.get? w = some WStatus.getting)
      (hq : s.queue = x :: rest) :
      Step p s { s with queue := rest
                        workers := s.workers.set w (WStatus.incr x)
                        log := s.log ++ [Event.deq w x] }
  /-- `counter_info = self.counter.increment()` (worker.py:178), atomic
  under the counter's lock (worker.py:42-45). -/
  | increment (s : PoolState) (w : Nat) (x : Item)
      (hw : s.workers.get? w = some (WStatus.incr x)) :
      Step p s { s with counter := s.counter + 1
                        workers := s.workers.set w (WStatus.processing x) }
  /-- `self.process(queue_item, counter_info)` returns normally, then
  `self.queue.task_done()` (worker.py:180-182; `task_done` has no
  observable effect here since the pool never calls `queue.join`). -/
  | procOk (s : PoolState) (w : Nat) (x : Item)
      (hw : s.workers.get? w = some (WStatus.processing x))
      (hok : p x = true) :
      Step p s { s with workers := s.workers.set w WStatus.atCheck
                        log := s.log ++ [Event.proc w x] }
  /-- `self.process(...)` raises: the handler logs the exception and sets
  the shared stop event (worker.py:183-186), then the loop continues to
  its top. -/
  | procFail (s : PoolState) (w : Nat) (x : Item)
      (hw : s.workers.get? w = some (WStatus.processing x))
      (hfail : p x = false) :
      Step p s { s with workers := s.workers.set w WStatus.atCheck
                        stop := true
                        log := s.log ++ [Event.proc w x, Event.stopSet] }
  /-- `WorkerPool._wait` observes that no worker `isAlive()` and returns;
  `start` then raises `WorkerPoolException` when the stop event is set and
  returns normally otherwise (worker.py:116, 122-123). -/
  | mainFinish (s : PoolState)
      (hm : s.main = MStatus.waiting)
      (hall : AllDone s.workers) :
      Step p s { s with main := if s.stop = true then MStatus.raisedPool
                                else MStatus.returnedNormal }
  /-- A `KeyboardInterrupt` reaches the main thread during `_wait`:
  `start` sets the stop event and waits again (worker.py:117-119). -/
  | kiArrive (s : PoolState)
      (hm : s.main = MStatus.waiting) :
      Step p s { s with main := MStatus.kiWaiting
                        stop := true
                        log := s.log ++ [Event.stopSet, Event.interrupted] }
  /-- After a `KeyboardInterrupt`, the second `_wait` observes all workers
  ended and `start` re-raises the interruption (worker.py:119-120). -/
  | kiFinish (s : PoolState)
      (hm : s.main = MStatus.kiWaiting)
      (hall : AllDone s.workers) :
      Step p s { s with main := MStatus.raisedKI }

/-- Finitely many interleaved atomic actions. -/
abbrev Steps (p : Item → Bool) : PoolState → PoolState → Prop :=
  Relation.ReflTransGen (Step p)

/-- Every state worker `w` can move to in one atomic action (a complete
enumeration of the `Step` constructors for worker `w`, see
`mem_succs_of_step`). -/
def workerSuccs (p : Item → Bool) (s : PoolState) (w : Nat) : List PoolState :=
  match s.workers.get? w with
  | some WStatus.atCheck =>
      (if s.queue = [] ∨ s.stop = true
       then [{ s with workers := s.workers.set w WStatus.done }] else []) ++
      (if s.queue ≠ [] ∧ s.stop = false
       then [{ s with workers := s.workers.set w WStatus.getting }] else [])
  | some WStatus.getting =>
      match s.queue with
      | [] => []
      | x :: rest =>
          [{ s with queue := rest
                    workers := s.workers.set w (WStatus.incr x)
                    log := s.log ++ [Event.deq w x] }]
  | some (WStatus.incr x) =>
      [{ s with counter := s.counter + 1
                workers := s.workers.set w (WStatus.processing x) }]
  | some (WStatus.processing x) =>
      if p x = true then
        [{ s with workers := s.workers.set w WStatus.atCheck
                  log := s.log ++ [Event.proc w x] }]
      else
        [{ s with workers := s.workers.set w WStatus.atCheck
                  stop := true
                  log := s.log ++ [Event.proc w x, Event.stopSet] }]
  | some WStatus.done => []
  | none => []

/-- Every state the main thread can move to in one atomic action. -/
def mainSuccs (s : PoolState) : List PoolState :=
  match s.main with
  | MStatus.waiting =>
      (if AllDone s.workers
       then [{ s with main := if s.stop = true then MStatus.raisedPool
                              else MStatus.returnedNormal }]
       else []) ++
      [{ s with main := MStatus.kiWaiting
                stop := true
                log := s.log ++ [Event.stopSet, Event.interrupted] }]
  | MStatus.kiWaiting =>
      if AllDone s.workers then [{ s with main := MStatus.raisedKI }] else []
  | _ => []

/-- Complete, executable enumeration of the one-step successors of a
state. -/
def succs (p : Item → Bool) (s : PoolState) : List PoolState :=
  ((List.range s.workers.length).map (workerSuccs p s)).flatten ++ mainSuccs s

/-- The item a worker currently holds (dequeued, not yet back at the loop
top), if any. -/
def heldOf : WStatus → Option Item
  | WStatus.incr x => some x
  | WStatus.processing x => some x
  | _ => none

/-- Items currently held by workers, between `queue.get()` and the return
to the loop top. -/
def heldItems (ws : List WStatus) : List Item := ws.filterMap heldOf

/-- The item a worker holds while between `queue.get()` and
`counter.increment()`. -/
def incrOf : WStatus → Option Item
  | WStatus.incr x => some x
  | _ => none

/-- Number of workers that have dequeued an item but not yet incremented
the counter for it. -/
def countIncr (ws : List WStatus) : Nat := (ws.filterMap incrOf).length

/-- The item of a `proc` event. -/
def procOf : Event → Option Item
  | Event.proc _ x => some x
  | _ => none

/-- The item of a `deq` event. -/
def deqOf : Event → Option Item
  | Event.deq _ x => some x
  | _ => none

/-- Items passed to `process`, in invocation order. -/
def procItems (log : List Event) : List Item := log.filterMap procOf

/-- Items returned by `queue.get()`, in dequeue order. -/
def deqItems (log : List Event) : List Item := log.filterMap deqOf

/-- The inductive invariant of a pool run started from
`initState size items`.  Besides bookkeeping (worker count, `counter.max`)
it states conservation of items (every item is in the queue, held by a
worker, or already passed to `process`), the counter accounting, what each
main-thread status implies, and that a clear stop event plus ended workers
forces a drained queue. -/
structure Inv (size : Nat) (items : List Item) (s : PoolState) : Prop where
  wlen : s.workers.length = size
  cmax : s.counterMax = items.length
  perm : (↑items : Multiset Item)
      = ↑s.queue + ↑(heldItems s.workers) + ↑(procItems s.log)
  deqPerm : (↑(deqItems s.log) : Multiset Item)
      = ↑(heldItems s.workers) + ↑(procItems s.log)
  cnt : s.counter + countIncr s.workers + s.queue.length = items.length
  mwait : s.main = MStatus.waiting → Event.interrupted ∉ s.log
  mki : s.main = MStatus.kiWaiting →
      s.stop = true ∧ Event.interrupted ∈ s.log
  mret : s.main = MStatus.returnedNormal →
      s.stop = false ∧ AllDone s.workers ∧ Event.interrupted ∉ s.log
  mpool : s.main = MStatus.raisedPool →
      s.stop = true ∧ AllDone s.workers ∧ Event.interrupted ∉ s.log
  mrki : s.main = MStatus.raisedKI →
      s.stop = true ∧ AllDone s.workers ∧ Event.interrupted ∈ s.log
  drained : s.stop = false → AllDone s.workers → s.workers ≠ [] →
      s.queue = []

/-- `start()` has finished, one way or the other: it returned normally,
raised `WorkerPoolException`, or re-raised a `KeyboardInterrupt`. -/
def Terminal (m : MStatus) : Prop :=
  m = MStatus.returnedNormal ∨ m = MStatus.raisedPool ∨ m = MStatus.raisedKI

instance (m : MStatus) : Decidable (Terminal m) := by
  unfold Terminal
  infer_instance

/-- Witness run for C1 and C6: one worker, one item, `process` succeeds.
`a0` through `a6` are the successive states of the (unique up to
stuttering) interleaving. -/
def pAllOk : Item → Bool := fun _ => true

def a0 : PoolState := initState 1 [4]

def a1 : PoolState := { a0 with workers := a0.workers.set 0 WStatus.getting }

def a2 : PoolState :=
  { a1 with queue := []
            workers := a1.workers.set 0 (WStatus.incr 4)
            log := a1.log ++ [Event.deq 0 4] }

def a3 : PoolState :=
  { a2 with counter := a2.counter + 1
            workers := a2.workers.set 0 (WStatus.processing 4) }

def a4 : PoolState :=
  { a3 with workers := a3.workers.set 0 WStatus.atCheck
            log := a3.log ++ [Event.proc 0 4] }

def a5 : PoolState := { a4 with workers := a4.workers.set 0 WStatus.done }

def a6 : PoolState := { a5 with main := MStatus.returnedNormal }

/-- Is this event a `process` invocation by worker `w`? -/
def isProcBy (w : Nat) : Event → Bool
  | Event.proc w' _ => w' == w
  | _ => false

/-- Number of `process` invocations by worker `w` recorded in the log. -/
def procCount (w : Nat) (log : List Event) : Nat :=
  (log.filter (isProcBy w)).length

/-- The contribution of one worker status to the in-flight count: 1 when
the worker is inside an iteration of its loop body (`_get_queue`), 0
otherwise. -/
def flightOf : WStatus → Nat
  | WStatus.getting => 1
  | WStatus.incr _ => 1
  | WStatus.processing _ => 1
  | _ => 0

/-- 1 when worker `w` is inside an iteration of its loop body
(`_get_queue`), 0 otherwise. -/
def inFlight (w : Nat) (ws : List WStatus) : Nat :=
  match ws.get? w with
  | some st => flightOf st
  | none => 0

/-- Does some `proc` event for item `x` occur in the list? -/
def procLater (x : Item) (l : List Event) : Bool :=
  l.any fun e =>
    match e with
    | Event.proc _ y => y == x
    | _ => false

/-- Does the list contain a `deq` of some item followed (strictly later)
by a `proc` of the same item? -/
def containsDeqThenProc : List Event → Bool
  | [] => false
  | Event.deq _ x :: rest => procLater x rest || containsDeqThenProc rest
  | _ :: rest => containsDeqThenProc rest

/-- The part of the log strictly after the first `stopSet` event. -/
def afterFirstStop (l : List Event) : List Event :=
  (l.dropWhile fun e => !(e == Event.stopSet)).drop 1

/-- Some item was dequeued strictly after the stop event was first set
and was nevertheless processed. -/
def deqAfterStopProcessed (l : List Event) : Bool :=
  containsDeqThenProc (afterFirstStop l)

/-- Handler outcome for the C5 counterexample run: item 5 fails,
item 6 succeeds. -/
def pFailOn5 : Item → Bool := fun x => !(x == 5)

def b0 : PoolState := initState 2 [5, 6]

def b1 : PoolState := { b0 with workers := b0.workers.set 0 WStatus.getting }

def b2 : PoolState := { b1 with workers := b1.workers.set 1 WStatus.getting }

def b3 : PoolState :=
  { b2 with queue := [6]
            workers := b2.workers.set 0 (WStatus.incr 5)
            log := b2.log ++ [Event.deq 0 5] }

def b4 : PoolState :=
  { b3 with counter := b3.counter + 1
            workers := b3.workers.set 0 (WStatus.processing 5) }

def b5 : PoolState :=
  { b4 with workers := b4.workers.set 0 WStatus.atCheck
            stop := true
            log := b4.log ++ [Event.proc 0 5, Event.stopSet] }

def b6 : PoolState :=
  { b5 with queue := []
            workers := b5.workers.set 1 (WStatus.incr 6)
            log := b5.log ++ [Event.deq 1 6] }

def b7 : PoolState :=
  { b6 with counter := b6.counter + 1
            workers := b6.workers.set 1 (WStatus.processing 6) }

def b8 : PoolState :=
  { b7 with workers := b7.workers.set 1 WStatus.atCheck
            log := b7.log ++ [Event.proc 1 6] }

/-- Handler outcome for the C2 deadlock run: every item succeeds. -/
def c0 : PoolState := initState 2 [7]

def c1 : PoolState := { c0 with workers := c0.workers.set 0 WStatus.getting }

def c2 : PoolState := { c1 with workers := c1.workers.set 1 WStatus.getting }

def c3 : PoolState :=
  { c2 with queue := []
            workers := c2.workers.set 0 (WStatus.incr 7)
            log := c2.log ++ [Event.deq 0 7] }

def c4 : PoolState :=
  { c3 with counter := c3.counter + 1
            workers := c3.workers.set 0 (WStatus.processing 7) }

def c5 : PoolState :=
  { c4 with workers := c4.workers.set 0 WStatus.atCheck
            log := c4.log ++ [Event.proc 0 7] }

def c6 : PoolState := { c5 with workers := c5.workers.set 0 WStatus.done }

def c7 : PoolState :=
  { c6 with main := MStatus.kiWaiting
            stop := true
            log := c6.log ++ [Event.stopSet, Event.interrupted] }

/-- The exceptions `DownloadWorker._secured_download_file` distinguishes
(worker.py:263-274): `InvalidCheckSumException` (worker.py:225-227),
`zipfile.BadZipfile`, `URLError`, `HTTPError`, and anything else hitting
the bare `except:`. -/
inductive DlErr
  | invalidChecksum
  | badZipfile
  | urlError
  | httpError
  | other
deriving DecidableEq

/-- Python truthiness of the `md5sum` argument as used by
`if md5sum:` (worker.py:335): `None` and the empty string are falsy. -/
def md5Truthy : Option String → Bool
  | none => false
  | some s => !(s == "")

/-- `DownloadWorker._validate_downloaded_file` (worker.py:324-349):
if `md5sum` is truthy, compare it with the md5 hex digest of the file's
contents (`fileDigest`) and raise `InvalidCheckSumException` on mismatch
(worker.py:335-344); then open the file as a zip and raise
`zipfile.BadZipfile` when `zip_fd.testzip()` reports a bad CRC
(`zipBadCrc`, worker.py:346-349). -/
def validateDownloadedFile (md5sum : Option String) (fileDigest : String)
    (zipBadCrc : Bool) : Except DlErr Unit :=
  if md5Truthy md5sum ∧ md5sum ≠ some fileDigest then
    Except.error DlErr.invalidChecksum
  else if zipBadCrc then Except.error DlErr.badZipfile
  else Except.ok ()

/-- Observable facts about the file at `file_fullpath`: whether
`os.path.isfile` holds (worker.py:316), the md5 hex digest of its
contents, and whether its zip CRC check fails. -/
structure DiskFile where
  isfile : Bool
  digest : String
  zipBadCrc : Bool

/-- `DownloadWorker._file_exists` (worker.py:302-322): `False` when the
path is not a file, `False` when `_validate_downloaded_file` raises
(caught by the bare `except:`), `True` otherwise. -/
def file_exists (f : DiskFile) (md5sum : Option String) : Bool :=
  f.isfile &&
    match validateDownloadedFile md5sum f.digest f.zipBadCrc with
    | Except.ok _ => true
    | Except.error _ => false

/-- `DownloadWorker._download_file` (worker.py:276-300), abstracted over
the filesystem and the network: `localFile` describes the file currently
at `file_fullpath`; `fetch` is the combined outcome of `urlopen(url)` and
the chunked write loop (worker.py:289-298), yielding the file written to
disk or a transport error.  Returns the overall outcome paired with the
number of network transfers (`urlopen` calls) performed. -/
def download_file (localFile : DiskFile) (fetch : Except DlErr DiskFile)
    (md5sum : Option String) : Except DlErr Unit × Nat :=
  if file_exists localFile md5sum then (Except.ok (), 0)
  else
    match fetch with
    | Except.error e => (Except.error e, 1)
    | Except.ok f =>
        (validateDownloadedFile md5sum f.digest f.zipBadCrc, 1)

/-- The exception classes `_secured_download_file` catches and retries
(worker.py:263-271); `HTTPError` is caught by the `URLError` clause as
well since it subclasses it, with the same retry behaviour.  Anything
else reaches the bare `except:` and is re-raised (worker.py:272-274). -/
def transient : DlErr → Bool
  | DlErr.invalidChecksum => true
  | DlErr.badZipfile => true
  | DlErr.urlError => true
  | DlErr.httpError => true
  | DlErr.other => false

/-- `self.max_attempt = 3` (worker.py:236). -/
def maxAttempt : Nat := 3

/-- `DownloadWorker._secured_download_file` (worker.py:244-274):
`res n` is the outcome of the `n`-th fetch-and-validate attempt
(`_download_file` call); `attempt` and `excError` are the recursion
parameters (`attempt=1` and `Exception('not defined')` at the call site,
worker.py:241, 244).  If `attempt > max_attempt`, the last error is
raised; otherwise the attempt runs, a transient failure recurses with
`attempt + 1`, and any other exception propagates immediately.  Returns
the outcome paired with the number of `_download_file` calls made. -/
def securedDownloadFile (res : Nat → Except DlErr Unit) (attempt : Nat)
    (excError : DlErr) : Except DlErr Unit × Nat :=
  if _h : maxAttempt < attempt then (Except.error excError, 0)
  else
    match res attempt with
    | Except.ok _ => (Except.ok (), 1)
    | Except.error e =>
        if transient e then
          ((securedDownloadFile res (attempt + 1) e).1,
            (securedDownloadFile res (attempt + 1) e).2 + 1)
        else (Except.error e, 1)
termination_by maxAttempt + 1 - attempt
decreasing_by omega

/-- `HgtParser.get_value` (hgt.py:176-188): the 16-bit big-endian value
at the index, with the no-data value -32768 mapped to `None`. -/
def get_value (raw : Int) : Option Int :=
  if raw = -32768 then none else some raw

/-- The elevation component of the tuples yielded by `HgtValueIterator`
(hgt.py:218-238): for `idx` from 0 while `idx < n` it yields
`(line + 1, col + 1, idx, square, parser.get_value(idx))`; `raws` lists
the raw 16-bit values of the file in index order and this stream keeps
the elevation component of each yielded tuple, in yield order. -/
def hgtValueStream (raws : List Int) : List (Option Int) :=
  raws.map get_value

/-- The insert loop of `ImportWorker._execute_import` (worker.py:433-456):
for each value produced by the iterator, first check the stop event
(worker.py:446, `stopAt k` = whether `stop_event.is_set()` at the `k`-th
check) and break if set, else call `manager.insert_data(value, ...)`
(worker.py:449).  Returns the `insert_data` arguments in call order.
The rest of the loop body only logs integer-percentage progress
(worker.py:451-456) and performs no insert. -/
def executeImportInserts {α : Type} (stopAt : Nat → Bool) :
    Nat → List α → List α
  | _, [] => []
  | k, v :: rest =>
      if stopAt k then []
      else v :: executeImportInserts stopAt (k + 1) rest

lemma lt_length_of_get?_eq_some {l : List WStatus} {n : Nat} {a : WStatus}
    (h : l.get? n = some a) : n < l.length := by
  by_contra hn
  rw [List.get?_eq_none.mpr (Nat.le_of_not_lt hn)] at h
  exact Option.noConfusion h

lemma mem_workerSuccs_mem_succs {p : Item → Bool} {s : PoolState} {w : Nat}
    {t : PoolState} (hlt : w < s.workers.length)
    (h : t ∈ workerSuccs p s w) : t ∈ succs p s := by
  refine List.mem_append_left _ ?_
  rw [List.mem_flatten]
  exact ⟨workerSuccs p s w, List.mem_map_of_mem _ (List.mem_range.mpr hlt), h⟩

/-- `succs` is complete: every `Step` transition lands in the enumerated
successor list.  In particular `succs p s = []` means the pool can make
no move at all from `s` (it is deadlocked). -/
lemma mem_succs_of_step {p : Item → Bool} {s t : PoolState}
    (h : Step p s t) : t ∈ succs p s := by
  cases h with
  | checkExit w hw hcond =>
      refine mem_workerSuccs_mem_succs (lt_length_of_get?_eq_some hw) ?_
      simp only [workerSuccs, hw, if_pos hcond]
      exact List.mem_append_left _ (List.mem_singleton.mpr rfl)
  | checkEnter w hw hq hs =>
      refine mem_workerSuccs_mem_succs (lt_length_of_get?_eq_some hw) ?_
      simp only [workerSuccs, hw, if_pos (And.intro hq hs)]
      exact List.mem_append_right _ (List.mem_singleton.mpr rfl)
  | dequeue w x rest hw hq =>
      refine mem_workerSuccs_mem_succs (lt_length_of_get?_eq_some hw) ?_
      simp only [workerSuccs, hw, hq]
      exact List.mem_singleton.mpr rfl
  | increment w x hw =>
      refine mem_workerSuccs_mem_succs (lt_length_of_get?_eq_some hw) ?_
      simp only [workerSuccs, hw]
      exact List.mem_singleton.mpr rfl
  | procOk w x hw hok =>
      refine mem_workerSuccs_mem_succs (lt_length_of_get?_eq_some hw) ?_
      simp only [workerSuccs, hw, if_pos hok]
      exact List.mem_singleton.mpr rfl
  | procFail w x hw hfail =>
      refine mem_workerSuccs_mem_succs (lt_length_of_get?_eq_some hw) ?_
      have : ¬ p x = true := by simp [hfail]
      simp only [workerSuccs, hw, if_neg this]
      exact List.mem_singleton.mpr rfl
  | mainFinish hm hall =>
      refine List.mem_append_right _ ?_
      simp only [mainSuccs, hm, if_pos hall]
      exact List.mem_append_left _ (List.mem_singleton.mpr rfl)
  | kiArrive hm =>
      refine List.mem_append_right _ ?_
      simp only [mainSuccs, hm]
      exact List.mem_append_right _ (List.mem_singleton.mpr rfl)
  | kiFinish hm hall =>
      refine List.mem_append_right _ ?_
      simp only [mainSuccs, hm, if_pos hall]
      exact List.mem_singleton.mpr rfl

lemma filterMap_cons_toList {α β : Type} (f : α → Option β) (x : α)
    (t : List α) :
    List.filterMap f (x :: t) = (f x).toList ++ List.filterMap f t := by
  cases h : f x <;> simp [List.filterMap_cons, h]

/-- Updating one list entry changes a `filterMap` by swapping the images
of the old and new entries (stated over multisets). -/
lemma coe_filterMap_set {α β : Type} (f : α → Option β) :
    ∀ (l : List α) (n : Nat) (a b : α), l.get? n = some a →
      (↑((l.set n b).filterMap f) : Multiset β) + ↑(f a).toList
        = ↑(l.filterMap f) + ↑(f b).toList := by
  intro l
  induction l with
  | nil => intro n a b h; simp at h
  | cons x t ih =>
      intro n a b h
      cases n with
      | zero =>
          obtain rfl : x = a := by simpa using h
          simp only [List.set, filterMap_cons_toList, ← Multiset.coe_add]
          abel
      | succ n =>
          have h' : t.get? n = some a := by simpa using h
          have := ih n a b h'
          simp only [List.set, filterMap_cons_toList, ← Multiset.coe_add]
          simp only [← Multiset.coe_add] at this
          calc (↑((f x).toList) + ↑((t.set n b).filterMap f) : Multiset β)
                  + ↑((f a).toList)
              = ↑((f x).toList)
                  + ((↑((t.set n b).filterMap f) : Multiset β) + ↑((f a).toList)) := by
                abel
            _ = ↑((f x).toList)
                  + ((↑(t.filterMap f) : Multiset β) + ↑((f b).toList)) := by
                rw [this]
            _ = (↑((f x).toList) + ↑(t.filterMap f) : Multiset β)
                  + ↑((f b).toList) := by abel

/-- Length form of `coe_filterMap_set`. -/
lemma length_filterMap_set {α β : Type} (f : α → Option β) (l : List α)
    (n : Nat) (a b : α) (h : l.get? n = some a) :
    ((l.set n b).filterMap f).length + (f a).toList.length
      = (l.filterMap f).length + (f b).toList.length := by
  have := congrArg Multiset.card (coe_filterMap_set f l n a b h)
  simpa using this

lemma filterMap_none_replicate {α β : Type} (f : α → Option β) (a : α)
    (hf : f a = none) (n : Nat) :
    (List.replicate n a).filterMap f = [] := by
  induction n with
  | zero => simp
  | succ n ih => simp [List.replicate, List.filterMap_cons, hf, ih]

lemma heldItems_of_allDone {ws : List WStatus} (h : AllDone ws) :
    heldItems ws = [] := by
  refine List.filterMap_eq_nil_iff.mpr ?_
  intro st hst
  rw [h st hst]
  rfl

lemma countIncr_of_allDone {ws : List WStatus} (h : AllDone ws) :
    countIncr ws = 0 := by
  have : ws.filterMap incrOf = [] := by
    refine List.filterMap_eq_nil_iff.mpr ?_
    intro st hst
    rw [h st hst]
    rfl
  simp [countIncr, this]

lemma not_allDone_of_get? {ws : List WStatus} {n : Nat} {st : WStatus}
    (h : ws.get? n = some st) (hne : st ≠ WStatus.done) : ¬ AllDone ws :=
  fun hall => hne (hall st (List.get?_mem h))

lemma inv_init (size : Nat) (items : List Item) :
    Inv size items (initState size items) := by
  refine
    { wlen := by simp [initState]
      cmax := rfl
      perm := by
        simp [initState, heldItems, procItems,
          filterMap_none_replicate heldOf WStatus.atCheck rfl]
      deqPerm := by
        simp [initState, heldItems, deqItems, procItems,
          filterMap_none_replicate heldOf WStatus.atCheck rfl]
      cnt := by
        simp [initState, countIncr,
          filterMap_none_replicate incrOf WStatus.atCheck rfl]
      mwait := by simp [initState]
      mki := by simp [initState]
      mret := by simp [initState]
      mpool := by simp [initState]
      mrki := by simp [initState]
      drained := ?_ }
  intro _ hall hne
  cases size with
  | zero => simp [initState] at hne
  | succ n =>
      exfalso
      have : WStatus.atCheck ∈ (initState (n + 1) items).workers := by
        simp [initState, List.mem_replicate]
      exact absurd (hall _ this) (by simp)

lemma not_allDone_set {ws : List WStatus} {n : Nat} {st : WStatus}
    (hw : ws.get? n = some st) {st' : WStatus} (hne : st' ≠ WStatus.done) :
    ¬ AllDone (ws.set n st') := by
  have hlt : n < ws.length := lt_length_of_get?_eq_some hw
  have hg : (ws.set n st').get? n = some st' := by
    rw [List.get?_eq_getElem?] at hw ⊢
    rw [List.getElem?_set_self', hw]
    rfl
  exact not_allDone_of_get? hg hne

/-- `Inv` is preserved by every atomic action. -/
lemma inv_step {p : Item → Bool} {size : Nat} {items : List Item}
    {s t : PoolState} (inv : Inv size items s) (h : Step p s t) :
    Inv size items t := by
  cases h with
  | checkExit w hw hcond =>
      have hheld := coe_filterMap_set heldOf s.workers w _ WStatus.done hw
      have hincr := length_filterMap_set incrOf s.workers w _ WStatus.done hw
      simp only [heldOf, Option.toList, Multiset.coe_nil, add_zero] at hheld
      simp only [incrOf, Option.toList, List.length_nil, add_zero] at hincr
      refine
        { wlen := by simp [inv.wlen]
          cmax := inv.cmax
          perm := by
            have hp := inv.perm
            simp only [heldItems] at hheld hp ⊢
            rw [hp, hheld]
          deqPerm := by
            have hp := inv.deqPerm
            simp only [heldItems] at hheld hp ⊢
            rw [hp, hheld]
          cnt := by
            have hc := inv.cnt
            simp only [countIncr] at hc hincr ⊢
            omega
          mwait := fun hm => inv.mwait hm
          mki := fun hm => inv.mki hm
          mret := fun hm =>
            absurd (inv.mret hm).2.1 (not_allDone_of_get? hw (by simp))
          mpool := fun hm =>
            absurd (inv.mpool hm).2.1 (not_allDone_of_get? hw (by simp))
          mrki := fun hm =>
            absurd (inv.mrki hm).2.1 (not_allDone_of_get? hw (by simp))
          drained := ?_ }
      intro h1 _ _
      cases hcond with
      | inl hq => exact hq
      | inr hs => rw [h1] at hs; exact absurd hs (by decide)
  | checkEnter w hw hq hs =>
      have hheld := coe_filterMap_set heldOf s.workers w _ WStatus.getting hw
      have hincr := length_filterMap_set incrOf s.workers w _ WStatus.getting hw
      simp only [heldOf, Option.toList, Multiset.coe_nil, add_zero] at hheld
      simp only [incrOf, Option.toList, List.length_nil, add_zero] at hincr
      refine
        { wlen := by simp [inv.wlen]
          cmax := inv.cmax
          perm := by
            have hp := inv.perm
            simp only [heldItems] at hheld hp ⊢
            rw [hp, hheld]
          deqPerm := by
            have hp := inv.deqPerm
            simp only [heldItems] at hheld hp ⊢
            rw [hp, hheld]
          cnt := by
            have hc := inv.cnt
            simp only [countIncr] at hc hincr ⊢
            omega
          mwait := fun hm => inv.mwait hm
          mki := fun hm => inv.mki hm
          mret := fun hm =>
            absurd (inv.mret hm).2.1 (not_allDone_of_get? hw (by simp))
          mpool := fun hm =>
            absurd (inv.mpool hm).2.1 (not_allDone_of_get? hw (by simp))
          mrki := fun hm =>
            absurd (inv.mrki hm).2.1 (not_allDone_of_get? hw (by simp))
          drained := fun _ hall _ =>
            absurd hall (not_allDone_set hw (by simp)) }
  | dequeue w x rest hw hq =>
      have hheld := coe_filterMap_set heldOf s.workers w _ (WStatus.incr x) hw
      have hincr :=
        length_filterMap_set incrOf s.workers w _ (WStatus.incr x) hw
      simp only [heldOf, Option.toList, Multiset.coe_nil, add_zero] at hheld
      simp only [incrOf, Option.toList, List.length_nil, add_zero,
        List.length_cons] at hincr
      refine
        { wlen := by simp [inv.wlen]
          cmax := inv.cmax
          perm := by
            have hp := inv.perm
            rw [hq] at hp
            simp only [heldItems, procItems, List.filterMap_append] at hp ⊢
            simp only [List.filterMap_cons, procOf, List.filterMap_nil,
              List.append_nil]
            rw [hheld]
            rw [show x :: rest = [x] ++ rest from rfl] at hp
            rw [← Multiset.coe_add] at hp
            rw [hp]
            abel
          deqPerm := by
            have hp := inv.deqPerm
            simp only [heldItems, procItems, deqItems,
              List.filterMap_append] at hp ⊢
            simp only [List.filterMap_cons, procOf, deqOf, List.filterMap_nil,
              List.append_nil]
            rw [← Multiset.coe_add, hheld, hp]
            abel
          cnt := by
            have hc := inv.cnt
            rw [hq] at hc
            simp only [countIncr, List.length_cons] at hincr hc ⊢
            omega
          mwait := fun hm => by
            have := inv.mwait hm
            simp only [List.mem_append] at *
            simp [this]
          mki := fun hm => by
            have := inv.mki hm
            simp only [List.mem_append]
            exact ⟨this.1, Or.inl this.2⟩
          mret := fun hm =>
            absurd (inv.mret hm).2.1 (not_allDone_of_get? hw (by simp))
          mpool := fun hm =>
            absurd (inv.mpool hm).2.1 (not_allDone_of_get? hw (by simp))
          mrki := fun hm =>
            absurd (inv.mrki hm).2.1 (not_allDone_of_get? hw (by simp))
          drained := fun _ hall _ =>
            absurd hall (not_allDone_set hw (by simp)) }
  | increment w x hw =>
      have hheld :=
        coe_filterMap_set heldOf s.workers w _ (WStatus.processing x) hw
      have hincr :=
        length_filterMap_set incrOf s.workers w _ (WStatus.processing x) hw
      simp only [heldOf, Option.toList] at hheld
      simp only [incrOf, Option.toList, List.length_nil, List.length_cons,
        add_zero] at hincr
      have hheld' :
          (↑(heldItems (s.workers.set w (WStatus.processing x)))
            : Multiset Item) = ↑(heldItems s.workers) := by
        simp only [heldItems]
        exact add_right_cancel hheld
      refine
        { wlen := by simp [inv.wlen]
          cmax := inv.cmax
          perm := by rw [inv.perm, hheld']
          deqPerm := by rw [inv.deqPerm, hheld']
          cnt := by
            have hc := inv.cnt
            simp only [countIncr] at hc hincr ⊢
            omega
          mwait := fun hm => inv.mwait hm
          mki := fun hm => inv.mki hm
          mret := fun hm =>
            absurd (inv.mret hm).2.1 (not_allDone_of_get? hw (by simp))
          mpool := fun hm =>
            absurd (inv.mpool hm).2.1 (not_allDone_of_get? hw (by simp))
          mrki := fun hm =>
            absurd (inv.mrki hm).2.1 (not_allDone_of_get? hw (by simp))
          drained := fun _ hall _ =>
            absurd hall (not_allDone_set hw (by simp)) }
  | procOk w x hw hok =>
      have hheld := coe_filterMap_set heldOf s.workers w _ WStatus.atCheck hw
      have hincr :=
        length_filterMap_set incrOf s.workers w _ WStatus.atCheck hw
      simp only [heldOf, Option.toList, Multiset.coe_nil, add_zero] at hheld
      simp only [incrOf, Option.toList, List.length_nil, add_zero] at hincr
      refine
        { wlen := by simp [inv.wlen]
          cmax := inv.cmax
          perm := by
            have hp := inv.perm
            simp only [heldItems, procItems, List.filterMap_append] at hp ⊢
            simp only [List.filterMap_cons, procOf, List.filterMap_nil,
              List.append_nil]
            rw [← hheld] at hp
            rw [hp]
            simp only [← Multiset.coe_add]
            abel
          deqPerm := by
            have hp := inv.deqPerm
            simp only [heldItems, procItems, deqItems,
              List.filterMap_append] at hp ⊢
            simp only [List.filterMap_cons, procOf, deqOf, List.filterMap_nil,
              List.append_nil]
            rw [← hheld] at hp
            rw [hp]
            simp only [← Multiset.coe_add]
            abel
          cnt := by
            have hc := inv.cnt
            simp only [countIncr] at hc hincr ⊢
            omega
          mwait := fun hm => by
            have := inv.mwait hm
            simp only [List.mem_append] at *
            simp [this]
          mki := fun hm => by
            have := inv.mki hm
            simp only [List.mem_append]
            exact ⟨this.1, Or.inl this.2⟩
          mret := fun hm =>
            absurd (inv.mret hm).2.1 (not_allDone_of_get? hw (by simp))
          mpool := fun hm =>
            absurd (inv.mpool hm).2.1 (not_allDone_of_get? hw (by simp))
          mrki := fun hm =>
            absurd (inv.mrki hm).2.1 (not_allDone_of_get? hw (by simp))
          drained := fun _ hall _ =>
            absurd hall (not_allDone_set hw (by simp)) }
  | procFail w x hw hfail =>
      have hheld := coe_filterMap_set heldOf s.workers w _ WStatus.atCheck hw
      have hincr :=
        length_filterMap_set incrOf s.workers w _ WStatus.atCheck hw
      simp only [heldOf, Option.toList, Multiset.coe_nil, add_zero] at hheld
      simp only [incrOf, Option.toList, List.length_nil, add_zero] at hincr
      refine
        { wlen := by simp [inv.wlen]
          cmax := inv.cmax
          perm := by
            have hp := inv.perm
            simp only [heldItems, procItems, List.filterMap_append] at hp ⊢
            simp only [List.filterMap_cons, procOf, List.filterMap_nil,
              List.append_nil]
            rw [← hheld] at hp
            rw [hp]
            simp only [← Multiset.coe_add]
            abel
          deqPerm := by
            have hp := inv.deqPerm
            simp only [heldItems, procItems, deqItems,
              List.filterMap_append] at hp ⊢
            simp only [List.filterMap_cons, procOf, deqOf, List.filterMap_nil,
              List.append_nil]
            rw [← hheld] at hp
            rw [hp]
            simp only [← Multiset.coe_add]
            abel
          cnt := by
            have hc := inv.cnt
            simp only [countIncr] at hc hincr ⊢
            omega
          mwait := fun hm => by
            have := inv.mwait hm
            simp only [List.mem_append] at *
            simp [this]
          mki := fun hm => by
            have h2 := inv.mki hm
            exact ⟨rfl, by simp only [List.mem_append]; exact Or.inl h2.2⟩
          mret := fun hm =>
            absurd (inv.mret hm).2.1 (not_allDone_of_get? hw (by simp))
          mpool := fun hm =>
            absurd (inv.mpool hm).2.1 (not_allDone_of_get? hw (by simp))
          mrki := fun hm =>
            absurd (inv.mrki hm).2.1 (not_allDone_of_get? hw (by simp))
          drained := fun h1 _ _ => by exact absurd h1 (by simp) }
  | mainFinish hm hall =>
      refine
        { wlen := inv.wlen
          cmax := inv.cmax
          perm := inv.perm
          deqPerm := inv.deqPerm
          cnt := inv.cnt
          mwait := ?_
          mki := ?_
          mret := ?_
          mpool := ?_
          mrki := ?_
          drained := inv.drained } <;>
        intro hmm <;> cases hstop : s.stop <;> simp [hstop] at hmm ⊢
      · exact ⟨hall, inv.mwait hm⟩
      · exact ⟨hall, inv.mwait hm⟩
  | kiArrive hm =>
      refine
        { wlen := inv.wlen
          cmax := inv.cmax
          perm := by
            simp only [procItems, List.filterMap_append, heldItems]
            simp only [List.filterMap_cons, procOf, List.filterMap_nil,
              List.append_nil]
            exact inv.perm
          deqPerm := by
            simp only [procItems, deqItems, List.filterMap_append, heldItems]
            simp only [List.filterMap_cons, procOf, deqOf, List.filterMap_nil,
              List.append_nil]
            exact inv.deqPerm
          cnt := inv.cnt
          mwait := by intro hmm; exact absurd hmm (by simp)
          mki := fun _ => ⟨rfl, by simp⟩
          mret := by intro hmm; exact absurd hmm (by simp)
          mpool := by intro hmm; exact absurd hmm (by simp)
          mrki := by intro hmm; exact absurd hmm (by simp)
          drained := fun h1 _ _ => absurd h1 (by simp) }
  | kiFinish hm hall =>
      refine
        { wlen := inv.wlen
          cmax := inv.cmax
          perm := inv.perm
          deqPerm := inv.deqPerm
          cnt := inv.cnt
          mwait := by intro hmm; exact absurd hmm (by simp)
          mki := by intro hmm; exact absurd hmm (by simp)
          mret := by intro hmm; exact absurd hmm (by simp)
          mpool := by intro hmm; exact absurd hmm (by simp)
          mrki := fun _ => ⟨(inv.mki hm).1, hall, (inv.mki hm).2⟩
          drained := inv.drained }

/-- Every state reachable from the initial state satisfies `Inv`. -/
lemma inv_reachable {p : Item → Bool} {size : Nat} {items : List Item}
    {s : PoolState} (h : Steps p (initState size items) s) :
    Inv size items s := by
  induction h with
  | refl => exact inv_init size items
  | tail _ hstep ih => exact inv_step ih hstep

/-- C1: for every pool size >= 1 and every item list, in every
interleaving in which `WorkerPool.start()` returns without raising, the
multiset of items passed to `process` equals the multiset of items
enqueued by `fill()` - every enqueued item was dequeued exactly once and
processed exactly once (by the one worker that dequeued it). -/
theorem start_success_processes_each_item_exactly_once
    (p : Item → Bool) (size : Nat) (items : List Item) (s : PoolState)
    (hsize : 1 ≤ size)
    (hreach : Steps p (initState size items) s)
    (hret : s.main = MStatus.returnedNormal) :
    (↑(procItems s.log) : Multiset Item) = ↑items ∧
    (↑(deqItems s.log) : Multiset Item) = ↑items := by
  have inv := inv_reachable hreach
  obtain ⟨hstop, hall, _⟩ := inv.mret hret
  have hne : s.workers ≠ [] := by
    intro h0
    have hl := inv.wlen
    rw [h0] at hl
    simp at hl
    omega
  have hq : s.queue = [] := inv.drained hstop hall hne
  have hheld : heldItems s.workers = [] := heldItems_of_allDone hall
  have hperm := inv.perm
  rw [hq, hheld] at hperm
  simp at hperm
  have hdeq := inv.deqPerm
  rw [hheld] at hdeq
  simp at hdeq
  exact ⟨Multiset.coe_eq_coe.mpr hperm.symm,
    Multiset.coe_eq_coe.mpr (hdeq.trans hperm.symm)⟩

lemma steps_a0_a6 : Steps pAllOk a0 a6 := by
  have h1 : Step pAllOk a0 a1 :=
    Step.checkEnter a0 0 rfl (by decide) rfl
  have h2 : Step pAllOk a1 a2 := by
    have := Step.dequeue (p := pAllOk) a1 0 4 [] rfl rfl
    exact this
  have h3 : Step pAllOk a2 a3 := Step.increment a2 0 4 rfl
  have h4 : Step pAllOk a3 a4 := Step.procOk a3 0 4 rfl rfl
  have h5 : Step pAllOk a4 a5 := Step.checkExit a4 0 rfl (Or.inl rfl)
  have h6 : Step pAllOk a5 a6 := Step.mainFinish a5 rfl (by decide)
  exact Relation.ReflTransGen.head h1 (Relation.ReflTransGen.head h2
    (Relation.ReflTransGen.head h3 (Relation.ReflTransGen.head h4
      (Relation.ReflTransGen.head h5 (Relation.ReflTransGen.single h6)))))

/-- Witness for C1: in the concrete one-worker run on the one-item queue
`[4]`, `start()` returned normally and the processed and dequeued
multisets both equal the enqueued multiset. -/
theorem start_success_processes_each_item_exactly_once_witness :
    (↑(procItems a6.log) : Multiset Item) = ↑[4] ∧
    (↑(deqItems a6.log) : Multiset Item) = ↑[4] :=
  start_success_processes_each_item_exactly_once pAllOk 1 [4] a6
    (by decide) steps_a0_a6 rfl

/-- C6: in every reachable state of every run (pool size >= 1), the
progress counter never exceeds `counter.max`, `counter.max` is the item
count set by `fill()`, and if `start()` has returned without failure the
counter equals the item count. -/
theorem counter_never_exceeds_max_and_reaches_it
    (p : Item → Bool) (size : Nat) (items : List Item) (s : PoolState)
    (hsize : 1 ≤ size)
    (hreach : Steps p (initState size items) s) :
    s.counter ≤ s.counterMax ∧ s.counterMax = items.length ∧
    (s.main = MStatus.returnedNormal → s.counter = s.counterMax) := by
  have inv := inv_reachable hreach
  have hc := inv.cnt
  refine ⟨by rw [inv.cmax]; omega, inv.cmax, ?_⟩
  intro hret
  obtain ⟨hstop, hall, _⟩ := inv.mret hret
  have hne : s.workers ≠ [] := by
    intro h0
    have hl := inv.wlen
    rw [h0] at hl
    simp at hl
    omega
  have hq : s.queue = [] := inv.drained hstop hall hne
  have hci : countIncr s.workers = 0 := countIncr_of_allDone hall
  rw [hq, hci] at hc
  rw [inv.cmax]
  simpa using hc

/-- Witness for C6: the same concrete run as for C1, evaluated at its
final state. -/
theorem counter_never_exceeds_max_and_reaches_it_witness :
    a6.counter ≤ a6.counterMax ∧ a6.counterMax = [4].length ∧
    (a6.main = MStatus.returnedNormal → a6.counter = a6.counterMax) :=
  counter_never_exceeds_max_and_reaches_it pAllOk 1 [4] a6 (by decide)
    steps_a0_a6

/-- C3: whenever `start()` has finished, all workers have stopped, and
the outcome is characterized exactly: `WorkerPoolException` is raised iff
the stop event is set and no user interruption occurred (one single
aggregate failure, however many workers failed); a `KeyboardInterrupt` is
re-raised iff one arrived; and `start()` returns normally iff the stop
event is clear. -/
theorem start_outcome_characterization
    (p : Item → Bool) (size : Nat) (items : List Item) (s : PoolState)
    (hreach : Steps p (initState size items) s)
    (hterm : Terminal s.main) :
    AllDone s.workers ∧
    (s.main = MStatus.raisedPool ↔
      s.stop = true ∧ Event.interrupted ∉ s.log) ∧
    (s.main = MStatus.raisedKI ↔ Event.interrupted ∈ s.log) ∧
    (s.main = MStatus.returnedNormal ↔ s.stop = false) := by
  have inv := inv_reachable hreach
  rcases hterm with hm | hm | hm
  · obtain ⟨h1, h2, h3⟩ := inv.mret hm
    refine ⟨h2, ?_, ?_, ?_⟩
    · constructor
      · intro hq; rw [hm] at hq; exact absurd hq (by simp)
      · rintro ⟨hs, _⟩; rw [h1] at hs; exact absurd hs (by simp)
    · constructor
      · intro hq; rw [hm] at hq; exact absurd hq (by simp)
      · intro hin; exact absurd hin h3
    · exact ⟨fun _ => h1, fun _ => hm⟩
  · obtain ⟨h1, h2, h3⟩ := inv.mpool hm
    refine ⟨h2, ?_, ?_, ?_⟩
    · exact ⟨fun _ => ⟨h1, h3⟩, fun _ => hm⟩
    · constructor
      · intro hq; rw [hm] at hq; exact absurd hq (by simp)
      · intro hin; exact absurd hin h3
    · constructor
      · intro hq; rw [hm] at hq; exact absurd hq (by simp)
      · intro hs; rw [h1] at hs; exact absurd hs (by simp)
  · obtain ⟨h1, h2, h3⟩ := inv.mrki hm
    refine ⟨h2, ?_, ?_, ?_⟩
    · constructor
      · intro hq; rw [hm] at hq; exact absurd hq (by simp)
      · rintro ⟨_, hnin⟩; exact absurd h3 hnin
    · exact ⟨fun _ => h3, fun _ => hm⟩
    · constructor
      · intro hq; rw [hm] at hq; exact absurd hq (by simp)
      · intro hs; rw [h1] at hs; exact absurd hs (by simp)

/-- Witness for C3: the concrete one-worker run, at its terminal state. -/
theorem start_outcome_characterization_witness :
    AllDone a6.workers ∧
    (a6.main = MStatus.raisedPool ↔
      a6.stop = true ∧ Event.interrupted ∉ a6.log) ∧
    (a6.main = MStatus.raisedKI ↔ Event.interrupted ∈ a6.log) ∧
    (a6.main = MStatus.returnedNormal ↔ a6.stop = false) :=
  start_outcome_characterization pAllOk 1 [4] a6 steps_a0_a6
    (Or.inl rfl)

lemma flightOf_le_one (st : WStatus) : flightOf st ≤ 1 := by
  cases st <;> simp [flightOf]

lemma inFlight_le_one (w : Nat) (ws : List WStatus) : inFlight w ws ≤ 1 := by
  unfold inFlight
  split
  · exact flightOf_le_one _
  · omega

lemma inFlight_get {w : Nat} {ws : List WStatus} {st : WStatus}
    (h : ws.get? w = some st) : inFlight w ws = flightOf st := by
  unfold inFlight
  rw [h]

lemma get?_set_self {ws : List WStatus} {v : Nat} {st : WStatus}
    (h : ws.get? v = some st) (st' : WStatus) :
    (ws.set v st').get? v = some st' := by
  rw [List.get?_eq_getElem?] at h ⊢
  rw [List.getElem?_set_self', h]
  rfl

lemma inFlight_set_self {ws : List WStatus} {v : Nat} {st : WStatus}
    (h : ws.get? v = some st) (st' : WStatus) :
    inFlight v (ws.set v st') = flightOf st' :=
  inFlight_get (get?_set_self h st')

lemma inFlight_set_ne {w v : Nat} (hne : w ≠ v) (ws : List WStatus)
    (st' : WStatus) : inFlight w (ws.set v st') = inFlight w ws := by
  unfold inFlight
  rw [List.get?_eq_getElem?, List.get?_eq_getElem?,
    List.getElem?_set_ne (by omega)]

lemma procCount_append (w : Nat) (l l' : List Event) :
    procCount w (l ++ l') = procCount w l + procCount w l' := by
  simp [procCount, List.filter_append]

/-- One atomic action never increases `procCount + inFlight` for any
worker once the stop event is set, and the stop event stays set. -/
lemma step_measure {p : Item → Bool} {s t : PoolState} (h : Step p s t)
    (hstop : s.stop = true) (w : Nat) :
    t.stop = true ∧
    procCount w t.log + inFlight w t.workers
      ≤ procCount w s.log + inFlight w s.workers := by
  cases h with
  | checkExit v hw hcond =>
      refine ⟨hstop, ?_⟩
      dsimp only
      by_cases hwv : w = v
      · subst hwv
        rw [inFlight_set_self hw, inFlight_get hw]
        simp [flightOf]
      · rw [inFlight_set_ne hwv]
  | checkEnter v hw hq hs => rw [hs] at hstop; exact absurd hstop (by simp)
  | dequeue v x rest hw hq =>
      refine ⟨hstop, ?_⟩
      dsimp only
      rw [procCount_append]
      have hpc : procCount w [Event.deq v x] = 0 := by
        simp [procCount, isProcBy]
      rw [hpc]
      by_cases hwv : w = v
      · subst hwv
        rw [inFlight_set_self hw, inFlight_get hw]
        simp [flightOf]
      · rw [inFlight_set_ne hwv]
        omega
  | increment v x hw =>
      refine ⟨hstop, ?_⟩
      dsimp only
      by_cases hwv : w = v
      · subst hwv
        rw [inFlight_set_self hw, inFlight_get hw]
        simp [flightOf]
      · rw [inFlight_set_ne hwv]
  | procOk v x hw hok =>
      refine ⟨hstop, ?_⟩
      dsimp only
      rw [procCount_append]
      by_cases hwv : w = v
      · subst hwv
        have hpc : procCount w [Event.proc w x] = 1 := by
          simp [procCount, isProcBy]
        rw [hpc, inFlight_set_self hw, inFlight_get hw]
        simp [flightOf]
      · have hpc : procCount w [Event.proc v x] = 0 := by
          simp [procCount, isProcBy]
          omega
        rw [hpc, inFlight_set_ne hwv]
        omega
  | procFail v x hw hfail =>
      refine ⟨rfl, ?_⟩
      dsimp only
      rw [procCount_append]
      by_cases hwv : w = v
      · subst hwv
        have hpc : procCount w [Event.proc w x, Event.stopSet] = 1 := by
          simp [procCount, isProcBy]
        rw [hpc, inFlight_set_self hw, inFlight_get hw]
        simp [flightOf]
      · have hpc : procCount w [Event.proc v x, Event.stopSet] = 0 := by
          simp [procCount, isProcBy]
          omega
        rw [hpc, inFlight_set_ne hwv]
        omega
  | mainFinish hm hall => exact ⟨hstop, le_refl _⟩
  | kiArrive hm =>
      refine ⟨rfl, ?_⟩
      dsimp only
      rw [procCount_append]
      have hpc : procCount w [Event.stopSet, Event.interrupted] = 0 := by
        simp [procCount, isProcBy]
      rw [hpc]
      omega
  | kiFinish hm hall => exact ⟨hstop, le_refl _⟩

lemma steps_measure {p : Item → Bool} {s t : PoolState} (h : Steps p s t)
    (hstop : s.stop = true) (w : Nat) :
    t.stop = true ∧
    procCount w t.log + inFlight w t.workers
      ≤ procCount w s.log + inFlight w s.workers := by
  induction h with
  | refl => exact ⟨hstop, le_refl _⟩
  | tail _ hstep ih =>
      obtain ⟨hstop', hle⟩ := ih
      obtain ⟨hstop'', hle'⟩ := step_measure hstep hstop' w
      exact ⟨hstop'', le_trans hle' hle⟩

/-- C5 (amended): once the stop event is set, each worker invokes
`process` at most one more time - the one invocation belonging to the
loop iteration it had already entered when the event was set.  (The
original claim, that no item dequeued after the event is set is ever
processed, is refuted by
`item_dequeued_after_stop_can_still_be_processed`.) -/
theorem after_stop_each_worker_processes_at_most_one_more_item
    (p : Item → Bool) (w : Nat) (s t : PoolState)
    (hstop : s.stop = true) (h : Steps p s t) :
    procCount w t.log ≤ procCount w s.log + 1 := by
  obtain ⟨_, hle⟩ := steps_measure h hstop w
  have h1 := inFlight_le_one w s.workers
  omega

/-- Witness for the amended C5: along the tail of the concrete
counterexample run, from the state `b5` in which worker 0's failure has
just set the stop event to the final state `b8`, worker 1 performs
exactly its one in-flight `process` invocation - the bound is tight. -/
theorem after_stop_each_worker_processes_at_most_one_more_item_witness :
    procCount 1 b8.log ≤ procCount 1 b5.log + 1 :=
  after_stop_each_worker_processes_at_most_one_more_item pFailOn5 1 b5 b8
    rfl
    (Relation.ReflTransGen.head (Step.dequeue b5 1 6 [] rfl rfl)
      (Relation.ReflTransGen.head (Step.increment b6 1 6 rfl)
        (Relation.ReflTransGen.single (Step.procOk b7 1 6 rfl rfl))))

lemma steps_b0_b8 : Steps pFailOn5 b0 b8 := by
  have h1 : Step pFailOn5 b0 b1 :=
    Step.checkEnter b0 0 rfl (by decide) rfl
  have h2 : Step pFailOn5 b1 b2 :=
    Step.checkEnter b1 1 rfl (by decide) rfl
  have h3 : Step pFailOn5 b2 b3 := Step.dequeue b2 0 5 [6] rfl rfl
  have h4 : Step pFailOn5 b3 b4 := Step.increment b3 0 5 rfl
  have h5 : Step pFailOn5 b4 b5 := Step.procFail b4 0 5 rfl rfl
  have h6 : Step pFailOn5 b5 b6 := Step.dequeue b5 1 6 [] rfl rfl
  have h7 : Step pFailOn5 b6 b7 := Step.increment b6 1 6 rfl
  have h8 : Step pFailOn5 b7 b8 := Step.procOk b7 1 6 rfl rfl
  exact Relation.ReflTransGen.head h1 (Relation.ReflTransGen.head h2
    (Relation.ReflTransGen.head h3 (Relation.ReflTransGen.head h4
      (Relation.ReflTransGen.head h5 (Relation.ReflTransGen.head h6
        (Relation.ReflTransGen.head h7 (Relation.ReflTransGen.single h8)))))))

/-- Counterexample to C5 as stated: a reachable interleaving of a
two-worker pool on queue `[5, 6]` (item 5's handler raises) in which
item 6 is dequeued strictly after the stop event was set by worker 0's
failure and is nevertheless fully processed by worker 1.  The loop-top
stop check (worker.py:161) happens before the blocking `queue.get()`, and
the flag is not re-checked between `get()` and `process`. -/
theorem item_dequeued_after_stop_can_still_be_processed :
    Steps pFailOn5 (initState 2 [5, 6]) b8 ∧
    b8.log = [Event.deq 0 5, Event.proc 0 5, Event.stopSet,
              Event.deq 1 6, Event.proc 1 6] ∧
    deqAfterStopProcessed b8.log = true :=
  ⟨steps_b0_b8, by decide, by decide⟩

lemma steps_c0_c6 : Steps pAllOk c0 c6 := by
  have h1 : Step pAllOk c0 c1 :=
    Step.checkEnter c0 0 rfl (by decide) rfl
  have h2 : Step pAllOk c1 c2 :=
    Step.checkEnter c1 1 rfl (by decide) rfl
  have h3 : Step pAllOk c2 c3 := Step.dequeue c2 0 7 [] rfl rfl
  have h4 : Step pAllOk c3 c4 := Step.increment c3 0 7 rfl
  have h5 : Step pAllOk c4 c5 := Step.procOk c4 0 7 rfl rfl
  have h6 : Step pAllOk c5 c6 := Step.checkExit c5 0 rfl (Or.inl rfl)
  exact Relation.ReflTransGen.head h1 (Relation.ReflTransGen.head h2
    (Relation.ReflTransGen.head h3 (Relation.ReflTransGen.head h4
      (Relation.ReflTransGen.head h5 (Relation.ReflTransGen.single h6)))))

/-- C2 fails on the code: a reachable interleaving of a two-worker pool
on the one-item queue `[7]` in which both workers pass the loop-top
emptiness check, worker 0 then dequeues and processes the only item and
ends, and worker 1 stays blocked forever inside `queue.get()` on the now
empty queue.  The queue is drained (`c6.queue = []`) yet `start()` is
still waiting, the only enabled transition at `c6` is the arrival of a
user `KeyboardInterrupt` (`succs pAllOk c6 = [c7]`), and even after it
sets the stop event the pool has no transition at all
(`succs pAllOk c7 = []`, by `mem_succs_of_step` no `Step` exists):
`queue.get()` never observes `stop_event`, so `start()` hangs. -/
theorem pool_can_hang_with_two_workers_one_item :
    Steps pAllOk (initState 2 [7]) c6 ∧
    c6.main = MStatus.waiting ∧ c6.queue = [] ∧ c6.stop = false ∧
    succs pAllOk c6 = [c7] ∧
    c7.main = MStatus.kiWaiting ∧
    succs pAllOk c7 = [] :=
  ⟨steps_c0_c6, rfl, rfl, rfl, by decide, rfl, by decide⟩

/-- C10: `WorkerPool(worker, 0)` is accepted (`range(0)` creates no
worker, worker.py:78), and after `fill(items)` the pool can finish:
`_wait` exits at once over the empty worker list, `start()` returns
normally; and in any run without a user interruption nothing at all
happens to the queue, counter or log, and the only possible terminal
outcome is a normal return with no item processed. -/
theorem zero_size_pool_start_returns_normally_processing_nothing
    (p : Item → Bool) (items : List Item) :
    Steps p (initState 0 items)
      { initState 0 items with main := MStatus.returnedNormal } ∧
    ∀ s, Steps p (initState 0 items) s → Event.interrupted ∉ s.log →
      s.log = [] ∧ s.counter = 0 ∧ s.queue = items ∧ s.stop = false ∧
      (Terminal s.main → s.main = MStatus.returnedNormal) := by
  constructor
  · refine Relation.ReflTransGen.single ?_
    have hall : AllDone (initState 0 items).workers := by
      intro st hst
      simp [initState] at hst
    exact Step.mainFinish (initState 0 items) rfl hall
  · intro s hsteps
    induction hsteps with
    | refl =>
        intro _
        refine ⟨rfl, rfl, rfl, rfl, ?_⟩
        intro ht
        rcases ht with h | h | h <;> simp [initState] at h
    | @tail b c hab hstep ih =>
        intro hnotin
        have invb : Inv 0 items b := inv_reachable hab
        have hwb : b.workers = [] := by
          have hl := invb.wlen
          rwa [List.length_eq_zero] at hl
        cases hstep with
        | checkExit v hw hcond => rw [hwb] at hw; simp at hw
        | checkEnter v hw hq hs => rw [hwb] at hw; simp at hw
        | dequeue v x rest hw hq => rw [hwb] at hw; simp at hw
        | increment v x hw => rw [hwb] at hw; simp at hw
        | procOk v x hw hok => rw [hwb] at hw; simp at hw
        | procFail v x hw hfail => rw [hwb] at hw; simp at hw
        | mainFinish hm hall =>
            obtain ⟨h1, h2, h3, h4, _⟩ := ih (by exact hnotin)
            refine ⟨h1, h2, h3, h4, ?_⟩
            intro _
            dsimp only
            rw [h4]
            simp
        | kiArrive hm =>
            exfalso
            apply hnotin
            dsimp only
            simp
        | kiFinish hm hall =>
            exact absurd (invb.mki hm).2 (by exact hnotin)

/-- Witness for C10: the pool of size 0 over the queue `[9]`, at the
state where `start()` has returned. -/
theorem zero_size_pool_start_returns_normally_witness :
    ({ initState 0 [9] with main := MStatus.returnedNormal }).log = [] ∧
    ({ initState 0 [9] with main := MStatus.returnedNormal }).counter = 0 ∧
    ({ initState 0 [9] with main := MStatus.returnedNormal }).queue = [9] ∧
    ({ initState 0 [9] with main := MStatus.returnedNormal }).stop = false ∧
    (Terminal ({ initState 0 [9] with
        main := MStatus.returnedNormal }).main →
      ({ initState 0 [9] with
          main := MStatus.returnedNormal }).main = MStatus.returnedNormal) :=
  (zero_size_pool_start_returns_normally_processing_nothing pAllOk [9]).2 _
    (zero_size_pool_start_returns_normally_processing_nothing pAllOk [9]).1
    (by decide)

/-- C8: when no checksum is supplied the hash comparison is skipped
entirely - for every digest the result depends only on the zip CRC check -
while a supplied non-matching checksum raises the checksum error and a
matching checksum with a bad CRC raises the zip error. -/
theorem validation_without_checksum_still_checks_crc
    (md5sum : Option String) (fileDigest : String) (zipBadCrc : Bool) :
    (md5sum = none →
      validateDownloadedFile md5sum fileDigest zipBadCrc
        = (if zipBadCrc then Except.error DlErr.badZipfile
           else Except.ok ())) ∧
    (∀ s, md5sum = some s → md5Truthy md5sum = true → s ≠ fileDigest →
      validateDownloadedFile md5sum fileDigest zipBadCrc
        = Except.error DlErr.invalidChecksum) ∧
    (∀ s, md5sum = some s → s = fileDigest → zipBadCrc = true →
      validateDownloadedFile md5sum fileDigest zipBadCrc
        = Except.error DlErr.badZipfile) := by
  refine ⟨?_, ?_, ?_⟩
  · intro h
    subst h
    simp [validateDownloadedFile, md5Truthy]
  · intro s hs ht hne
    subst hs
    rw [validateDownloadedFile, if_pos]
    exact ⟨ht, by simpa using hne⟩
  · intro s hs heq hz
    subst hs
    subst heq
    rw [validateDownloadedFile, if_neg, if_pos hz]
    simp

/-- Witness for C8 at concrete inputs: no checksum with a bad CRC, a
mismatching checksum, and a matching checksum with a bad CRC. -/
theorem validation_without_checksum_still_checks_crc_witness :
    validateDownloadedFile none "d41d8cd9" true
      = Except.error DlErr.badZipfile ∧
    validateDownloadedFile (some "aaaa") "d41d8cd9" false
      = Except.error DlErr.invalidChecksum ∧
    validateDownloadedFile (some "d41d8cd9") "d41d8cd9" true
      = Except.error DlErr.badZipfile := by
  refine ⟨?_, ?_, ?_⟩
  · exact (validation_without_checksum_still_checks_crc none "d41d8cd9"
      true).1 rfl
  · exact (validation_without_checksum_still_checks_crc (some "aaaa")
      "d41d8cd9" false).2.1 "aaaa" rfl (by decide) (by decide)
  · exact (validation_without_checksum_still_checks_crc (some "d41d8cd9")
      "d41d8cd9" true).2.2 "d41d8cd9" rfl rfl rfl

/-- C7: when the destination file already exists and passes validation
(matching checksum if one is given, valid zip CRC), `_download_file`
returns successfully with zero network transfers - the idempotent skip
(worker.py:285-287). -/
theorem preexisting_valid_file_downloads_nothing
    (localFile : DiskFile) (fetch : Except DlErr DiskFile)
    (md5sum : Option String)
    (hfile : localFile.isfile = true)
    (hvalid : validateDownloadedFile md5sum localFile.digest
        localFile.zipBadCrc = Except.ok ()) :
    download_file localFile fetch md5sum = (Except.ok (), 0) := by
  have hfe : file_exists localFile md5sum = true := by
    unfold file_exists
    rw [hfile, hvalid]
    rfl
  unfold download_file
  rw [hfe]
  simp

/-- Witness for C7: a present file whose digest matches the supplied
checksum and whose CRC is fine, with a network that would fail if it
were consulted. -/
theorem preexisting_valid_file_downloads_nothing_witness :
    download_file (DiskFile.mk true "d41d8cd9" false)
        (Except.error DlErr.urlError) (some "d41d8cd9")
      = (Except.ok (), 0) :=
  preexisting_valid_file_downloads_nothing
    (DiskFile.mk true "d41d8cd9" false) (Except.error DlErr.urlError)
    (some "d41d8cd9") rfl rfl

/-- C4: if every attempt fails with a transient error (bad checksum, bad
zip CRC, URL or HTTP error), exactly 3 fetch-and-validate attempts are
made and the error of the third (last) attempt is raised; a non-transient
error at any attempt is not retried: it propagates immediately, after
exactly the one `_download_file` call of that attempt. -/
theorem download_makes_three_attempts_then_raises_last_error
    (res : Nat → Except DlErr Unit) (e1 : DlErr) :
    ((∀ n, 1 ≤ n → n ≤ 3 →
        ∃ e, res n = Except.error e ∧ transient e = true) →
      ∀ e3, res 3 = Except.error e3 →
        securedDownloadFile res 1 DlErr.other = (Except.error e3, 3)) ∧
    (∀ a, 1 ≤ a → a ≤ 3 → res a = Except.error e1 → transient e1 = false →
      ∀ prev, securedDownloadFile res a prev = (Except.error e1, 1)) := by
  constructor
  · intro hall e3 h3
    obtain ⟨a1, ha1, ht1⟩ := hall 1 (by omega) (by omega)
    obtain ⟨a2, ha2, ht2⟩ := hall 2 (by omega) (by omega)
    obtain ⟨a3, ha3, ht3⟩ := hall 3 (by omega) (by omega)
    have he3 : e3 = a3 := by
      rw [h3] at ha3
      injection ha3
    subst he3
    have h4 : securedDownloadFile res 4 e3 = (Except.error e3, 0) := by
      rw [securedDownloadFile]
      rw [dif_pos (by decide)]
    have h3' : securedDownloadFile res 3 a2 = (Except.error e3, 1) := by
      rw [securedDownloadFile, dif_neg (by decide), ha3]
      dsimp only
      rw [if_pos ht3, h4]
    have h2' : securedDownloadFile res 2 a1 = (Except.error e3, 2) := by
      rw [securedDownloadFile, dif_neg (by decide), ha2]
      dsimp only
      rw [if_pos ht2, h3']
    rw [securedDownloadFile, dif_neg (by decide), ha1]
    dsimp only
    rw [if_pos ht1, h2']
  · intro a ha1 ha3 h1 ht prev
    rw [securedDownloadFile, dif_neg (by simp only [maxAttempt]; omega), h1]
    dsimp only
    rw [if_neg (by simp [ht])]

/-- Witness for C4: a run whose three attempts all fail with checksum
errors (3 attempts, last error surfaced) and a run whose first attempt
fails with an unexpected error (1 attempt, immediate propagation). -/
theorem download_makes_three_attempts_then_raises_last_error_witness :
    securedDownloadFile (fun _ => Except.error DlErr.invalidChecksum) 1
        DlErr.other
      = (Except.error DlErr.invalidChecksum, 3) ∧
    securedDownloadFile (fun _ => Except.error DlErr.other) 1 DlErr.other
      = (Except.error DlErr.other, 1) :=
  ⟨(download_makes_three_attempts_then_raises_last_error
        (fun _ => Except.error DlErr.invalidChecksum) DlErr.other).1
      (fun _ _ _ => ⟨DlErr.invalidChecksum, rfl, rfl⟩) DlErr.invalidChecksum
      rfl,
    (download_makes_three_attempts_then_raises_last_error
        (fun _ => Except.error DlErr.other) DlErr.other).2 1 (by decide)
      (by decide) rfl rfl DlErr.other⟩

/-- C9: importing a raster source of 4 samples with raw values
[10, -32768, 20, 5] with the stop event never set performs exactly 4
inserts, carrying [10, None, 20, 5] in decoder order. -/
theorem import_inserts_all_four_values_in_order :
    executeImportInserts (fun _ => false) 0
        (hgtValueStream [10, -32768, 20, 5])
      = [some 10, none, some 20, some 5] ∧
    (executeImportInserts (fun _ => false) 0
        (hgtValueStream [10, -32768, 20, 5])).length = 4 := by
  constructor <;> rfl

end Hgt2Sql
